import Mathlib

/-!
# Stress_Fibre_Scores — verification of the tiled stress-fibre analysis

A shallow embedding of `Stress_Fibre_Scores.py`. Images are 2D grids of
exact rational pixel values (standing for the floating-point values of the
source); the external ImageJ Gaussian smoothing is a parameter of the
`process` band-pass step. Angles are measured in units of π: a rational
value `q` stands for the angle `q·π` radians. Every angle manipulated by
the source (`maxi*((2*pi)/8) + pi/2`, the `normAngle` fold with bounds `0`,
`pi`, `2*pi`) is a rational multiple of π, and since π > 0 both comparisons
of `normAngle` (`theta < 0`, `theta > pi`) commute with the scaling, so the
embedding is exact.

Python's float division raising `ZeroDivisionError` on a zero denominator
is modelled with `Option`; a per-tile failure stops the analysis with a
crash flag, mirroring the uncaught exception in the script.
-/

set_option autoImplicit false

namespace StressFibre

/-- A 2D scalar-intensity image: width, height and a pixel accessor
(row `y`, column `x`), pixels as exact rationals. -/
structure Image where
  width : ℕ
  height : ℕ
  pix : ℕ → ℕ → ℚ

/-- Border-replicating sample used by the 3×3 convolution: coordinates are
clamped to `[0, width-1] × [0, height-1]` (ImageJ extends edge pixels). -/
def sample (img : Image) (x y : ℤ) : ℚ :=
  img.pix (min x ((img.width : ℤ) - 1)).toNat (min y ((img.height : ℤ) - 1)).toNat

/-- The eight Kirsch kernels, row-major 3×3, exactly as listed in the
source (`dirKernels`, src lines 26–51). -/
def dirKernels : List (List ℤ) :=
  [[5, 5, 5, -3, 0, -3, -3, -3, -3],
   [-3, 5, 5, -3, 0, 5, -3, -3, -3],
   [-3, -3, 5, -3, 0, 5, -3, -3, 5],
   [-3, -3, -3, -3, 0, 5, -3, 5, 5],
   [-3, -3, -3, 5, 0, -3, 5, 5, -3],
   [-3, -3, -3, -3, 0, -3, 5, 5, 5],
   [5, 5, -3, 5, 0, -3, -3, -3, -3],
   [5, -3, -3, 5, 0, -3, 5, -3, -3]]

/-- One output pixel of the 3×3 convolution of `img` with kernel `k`
(row-major taps, replicated border). The Kirsch kernels sum to 0, so
ImageJ's kernel normalisation does not apply. -/
def convAt (img : Image) (k : List ℤ) (x y : ℕ) : ℚ :=
  (k.getD 0 0 : ℚ) * sample img ((x : ℤ) - 1) ((y : ℤ) - 1) +
  (k.getD 1 0 : ℚ) * sample img (x : ℤ) ((y : ℤ) - 1) +
  (k.getD 2 0 : ℚ) * sample img ((x : ℤ) + 1) ((y : ℤ) - 1) +
  (k.getD 3 0 : ℚ) * sample img ((x : ℤ) - 1) (y : ℤ) +
  (k.getD 4 0 : ℚ) * sample img (x : ℤ) (y : ℤ) +
  (k.getD 5 0 : ℚ) * sample img ((x : ℤ) + 1) (y : ℤ) +
  (k.getD 6 0 : ℚ) * sample img ((x : ℤ) - 1) ((y : ℤ) + 1) +
  (k.getD 7 0 : ℚ) * sample img (x : ℤ) ((y : ℤ) + 1) +
  (k.getD 8 0 : ℚ) * sample img ((x : ℤ) + 1) ((y : ℤ) + 1)

/-- `ip.convolve(k, 3, 3)` (src 73): same-size output. -/
def convolve (img : Image) (k : List ℤ) : Image :=
  ⟨img.width, img.height, fun x y => convAt img k x y⟩

/-- `getStatistics().mean`: mean pixel value. For an empty image this is
`0 / 0 = 0` in ℚ. -/
def meanImg (img : Image) : ℚ :=
  (∑ y in Finset.range img.height, ∑ x in Finset.range img.width, img.pix x y) /
    ((img.width : ℚ) * (img.height : ℚ))

/-- `edgeDirections` (src 69–75): the mean of each Kirsch convolution of
the tile, in kernel-list order. -/
def edgeDirections (img : Image) : List ℚ :=
  dirKernels.map fun k => meanImg (convolve img k)

/-- Python `max` over a nonempty list (the `[]` case is unreachable in the
program; 0 is a dummy). -/
def pyMax : List ℚ → ℚ
  | [] => 0
  | x :: xs => xs.foldl max x

/-- Python `min` over a nonempty list (the `[]` case is unreachable in the
program; 0 is a dummy). -/
def pyMin : List ℚ → ℚ
  | [] => 0
  | x :: xs => xs.foldl min x

/-- Python float division: `ZeroDivisionError` on a zero denominator is
modelled as `none`. -/
def fdiv (a b : ℚ) : Option ℚ := if b = 0 then none else some (a / b)

/-- The tile score (src 103–106):
`((edgeMax - edgeMin) / (edgeSum - edgeMin)) * 8`, with the unguarded
division: `none` models the `ZeroDivisionError`. -/
def scoreOf (edgeDir : List ℚ) : Option ℚ :=
  (fdiv (pyMax edgeDir - pyMin edgeDir) (edgeDir.sum - pyMin edgeDir)).map
    fun q => q * 8

/-- `normAngle` (src 62–67), in units of π: if the angle is negative add
`2π`, then if the result exceeds `π` subtract `π`. -/
def normAngle (theta : ℚ) : ℚ :=
  let t := if theta < 0 then 2 + theta else theta
  if t > 1 then t - 1 else t

/-- The raw principal angle `maxi*((2*pi)/len) + pi/2` (src 108), in units
of π. -/
def thetaRaw (maxi n : ℕ) : ℚ := (maxi : ℚ) * (2 / (n : ℚ)) + 1 / 2

/-- All entries of the list are numerically equal. -/
def allEqual (l : List ℚ) : Prop := ∀ a ∈ l, ∀ b ∈ l, a = b

instance (l : List ℚ) : Decidable (allEqual l) := by
  unfold allEqual; infer_instance

/-- Physical pixel calibration. -/
structure Calib where
  pixelWidth : ℚ
  pixelHeight : ℚ
  deriving DecidableEq

/-- One row of the shared results table (src 111–117). -/
structure TileRecord where
  image : String
  tile : ℕ
  x : ℚ
  y : ℚ
  fibreIntensity : ℚ
  principalDirection : ℚ
  score : ℚ
  deriving DecidableEq

/-- An overlay primitive (src 119–138). The arrow is stored by its
geometric parameters — centre, angle (units of π) and the clamped score
driving its colour — because its endpoints involve `cos`/`sin` of the
angle, computed by the external rendering collaborator. -/
inductive Annot where
  | rect (x y w h : ℕ)
  | arrow (ox oy : ℕ) (theta f : ℚ)
  | label (x y : ℤ) (row : ℕ)
  deriving DecidableEq

/-- Python `range(a, b, s)` for `s > 0`: `a, a+s, a+2s, …` strictly below
`b`. (The program only calls `range` with `s = step`; `step = 0` is
intercepted before this function is used.) -/
def pyRange (a b s : ℕ) : List ℕ :=
  (List.range (if b ≤ a then 0 else (b - a + s - 1) / s)).map fun i => a + i * s

/-- `nRows` (src 84): number of rows and columns of tiles. -/
def nRows : ℕ := 24

/-- `step = int(H/nRows)` (src 88). -/
def tileStep (H : ℕ) : ℕ := H / nRows

/-- `overlap = int(step/5.0)` (src 89): truncation of a nonnegative float
is the floor. -/
def tileOverlap (H : ℕ) : ℕ := tileStep H / 5

/-- Candidate tile anchors in loop order (src 90–91): `y` outer loop over
`range(overlap, H-1, step)`, `x` inner loop over `range(overlap, W-1, step)`. -/
def candAnchors (W H : ℕ) : List (ℕ × ℕ) :=
  (pyRange (tileOverlap H) (H - 1) (tileStep H)).flatMap fun y =>
    (pyRange (tileOverlap H) (W - 1) (tileStep H)).map fun x => (x, y)

/-- The boundary check (src 92–94): the tile survives unless its centre
`(x + step/2, y + step/2)` exceeds `W-1` or `H-1`. -/
def keepTile (W H x y : ℕ) : Prop :=
  ¬(x + tileStep H / 2 > W - 1 ∨ y + tileStep H / 2 > H - 1)

instance (W H x y : ℕ) : Decidable (keepTile W H x y) := by
  unfold keepTile; infer_instance

/-- The surviving anchors, in generation order. -/
def keptAnchors (W H : ℕ) : List (ℕ × ℕ) :=
  (candAnchors W H).filter fun p => decide (keepTile W H p.1 p.2)

/-- `ip.setRoi(...); ip.crop()` (src 96–98): ImageJ clips the roi
rectangle to the image bounds before copying. -/
def crop (img : Image) (x0 y0 w h : ℕ) : Image :=
  ⟨min w (img.width - x0), min h (img.height - y0),
   fun i j => img.pix (x0 + i) (y0 + j)⟩

/-- The tile of anchor `(x, y)`: bounds `(x-overlap, y-overlap)`, side
`step + 2*overlap`, cropped from the input of the analysis (src 96–98). -/
def tileAt (ip : Image) (x y : ℕ) : Image :=
  crop ip (x - tileOverlap ip.height) (y - tileOverlap ip.height)
    (tileStep ip.height + tileOverlap ip.height * 2)
    (tileStep ip.height + tileOverlap ip.height * 2)

/-- The principal direction of the tile at `(x, y)` (src 107–109), in
units of π: `maxi = edgeDir.index(edgeMax)` (first occurrence), then the
raw angle and the `normAngle` fold. -/
def thetaAt (ip : Image) (x y : ℕ) : ℚ :=
  normAngle (thetaRaw
    ((edgeDirections (tileAt ip x y)).indexOf (pyMax (edgeDirections (tileAt ip x y))))
    (edgeDirections (tileAt ip x y)).length)

/-- The table row written for the tile at `(x, y)` (src 111–117): title,
running row index, calibrated centre coordinates, mean of the tile as
cropped from the analysis input, folded direction, score. -/
def recAt (ip : Image) (title : String) (cal : Calib) (row x y : ℕ) (sc : ℚ) : TileRecord :=
  ⟨title, row,
   ((x + tileStep ip.height / 2 : ℕ) : ℚ) * cal.pixelWidth,
   ((y + tileStep ip.height / 2 : ℕ) : ℚ) * cal.pixelHeight,
   meanImg (tileAt ip x y), thetaAt ip x y, sc⟩

/-- The three overlay primitives added for the tile at `(x, y)`
(src 119–138): the tile rectangle, the direction arrow (coloured by the
score clamped to `[0,1]`), the cyan index label. -/
def annotsAt (ip : Image) (x y row : ℕ) (sc : ℚ) : List Annot :=
  [Annot.rect (x - tileOverlap ip.height) (y - tileOverlap ip.height)
     (tileStep ip.height + tileOverlap ip.height * 2)
     (tileStep ip.height + tileOverlap ip.height * 2),
   Annot.arrow (x + tileStep ip.height / 2) (y + tileStep ip.height / 2)
     (thetaAt ip x y) (max 0 (min sc 1)),
   Annot.label ((x : ℤ) + ((tileStep ip.height / 2 : ℕ) : ℤ) - 10) ((y : ℤ) + 6) row]

/-- The body of the tile loop (src 90–140) over the remaining candidate
anchors: boundary skip, crop from the (filtered) input, the directional
responses, the score — stopping with the crash flag on the unguarded
division by zero — and per surviving tile one table row followed by the
three overlay primitives. -/
def processTiles (ip : Image) (title : String) (cal : Calib) :
    ℕ → List (ℕ × ℕ) → List TileRecord × List Annot × Bool
  | _, [] => ([], [], false)
  | row, (x, y) :: rest =>
    if ¬keepTile ip.width ip.height x y then
      processTiles ip title cal row rest
    else
      match scoreOf (edgeDirections (tileAt ip x y)) with
      | none => ([], [], true)
      | some sc =>
        (recAt ip title cal row x y sc :: (processTiles ip title cal (row + 1) rest).1,
         annotsAt ip x y row sc ++ (processTiles ip title cal (row + 1) rest).2.1,
         (processTiles ip title cal (row + 1) rest).2.2)

/-- `tiledAnalysis` (src 77–140). `none` models the early return after the
`IJ.error` dialog on a non-square image. Otherwise the result is the
produced table rows, the produced overlay primitives and a crash flag:
`true` when the run died with the unguarded `ZeroDivisionError` (src 106)
— or, for `H < 24` where `step = 0`, with `range`'s `ValueError`. -/
def tiledAnalysis (startRow : ℕ) (ip : Image) (title : String) (cal : Calib) :
    Option (List TileRecord × List Annot × Bool) :=
  if ip.width ≠ ip.height then none
  else if tileStep ip.height = 0 then some ([], [], true)
  else some (processTiles ip title cal startRow (candAnchors ip.width ip.height))

/-- `sigmaPx = 2.0` (src 56). -/
def sigmaPx : ℚ := 2

/-- `ip.copyBits(sub, 0, 0, Blitter.SUBTRACT)` (src 59): pixelwise
subtraction. -/
def imgSub (a b : Image) : Image :=
  ⟨a.width, a.height, fun x y => a.pix x y - b.pix x y⟩

/-- `process` (src 53–60): the difference-of-Gaussians band-pass, with the
external ImageJ Gaussian smoothing passed in as `blur sigma img`. -/
def process (blur : ℚ → Image → Image) (inip : Image) : Image :=
  imgSub (blur sigmaPx inip) (blur (sigmaPx * (14 / 10)) inip)

/-- The observable state of one run of the script: the shared results
table (`rt`, src 185), the per-image overlays actually displayed, the
error dialogs raised so far and whether an uncaught exception has killed
the run. -/
structure BatchState where
  table : List TileRecord
  overlays : List (List Annot)
  errors : List String
  crashed : Bool
  deriving DecidableEq

/-- The state at script start: a fresh empty table. -/
def batchInit : BatchState := ⟨[], [], [], false⟩

/-- One `run` call (src 142–167) on an already-selected (raw) slice:
band-pass `process`, `tiledAnalysis` against the shared table, then the
overlay display. A non-square image surfaces the `IJ.error` dialog and
still displays an empty overlay; an uncaught per-tile exception leaves the
rows already written in the table, skips the display and kills the rest of
the batch (the directory walk of src 169–183 has no handler). -/
def runOne (blur : ℚ → Image → Image) (cal : Calib) (st : BatchState)
    (item : String × Image) : BatchState :=
  if st.crashed then st
  else
    match tiledAnalysis st.table.length (process blur item.2) item.1 cal with
    | none =>
      { st with overlays := st.overlays ++ [[]],
                errors := st.errors ++ ["Image is not square"] }
    | some (rs, annots, cr) =>
      if cr then { st with table := st.table ++ rs, crashed := true }
      else { st with table := st.table ++ rs, overlays := st.overlays ++ [annots] }

/-- Processing a batch of images from a given state. -/
def processFrom (blur : ℚ → Image → Image) (cal : Calib) (st : BatchState)
    (items : List (String × Image)) : BatchState :=
  items.foldl (runOne blur cal) st

/-- A whole run of the script over a batch of (title, raw slice) pairs. -/
def processBatch (blur : ℚ → Image → Image) (cal : Calib)
    (items : List (String × Image)) : BatchState :=
  processFrom blur cal batchInit items

/-- The slice-selection loop of `run` (src 147–154): running maximum of
the slice means, started from the sentinels `maxM = -1`, `maxZ = -1`,
updating on a strict improvement. -/
def selectGo : List ℚ → ℕ → ℚ → ℤ → ℤ
  | [], _, _, mz => mz
  | v :: rest, z, mM, mz =>
    if mM < v then selectGo rest (z + 1) v (z : ℤ)
    else selectGo rest (z + 1) mM mz

/-- The selected slice index `maxZ` over the means actually scanned. -/
def selectMaxZ (means : List ℚ) : ℤ := selectGo means 0 (-1) (-1)

/-- A dummy image, the (unreachable) default of the list accesses below. -/
def emptyImg : Image := ⟨0, 0, fun _ _ => 0⟩

/-- ImageJ's `ImagePlus.getStackIndex` clamps its 1-based slice argument
into `[1, nSlices]` (`if (slice<1) slice=1; if (slice>nSlices)
slice=nSlices;`): the clamped 1-based slice for argument `s` on an
`n`-slice stack. The script relies on this clamping — it passes its
0-based loop variable `z` as the slice argument. -/
def clampSlice (n : ℕ) (s : ℤ) : ℕ :=
  if s < 1 then 1 else if (n : ℤ) < s then n else s.toNat

/-- The reference-channel means the loop of src 149–151 actually reads:
iteration `z` fetches `getProcessor(getStackIndex(2, z, 1))`, i.e. the
clamped 1-based slice `max(z, 1)` — slice 1 twice, the last slice never.
`slices` is the list of reference-channel (channel 2) slices, 0-based. -/
def scannedMeans (slices : List Image) : List ℚ :=
  (List.range slices.length).map fun (z : ℕ) =>
    meanImg (slices.getD (clampSlice slices.length (z : ℤ) - 1) emptyImg)

/-- The slice selector (src 145–155): the 0-based index of the slice the
final `getProcessor(getStackIndex(2, maxZ, 1))` (src 155) returns, with
`maxZ` the loop result over the scanned means and the same clamping
applied (so even `maxZ = -1` yields slice 1). -/
def selectSliceIdx (slices : List Image) : ℕ :=
  clampSlice slices.length (selectMaxZ (scannedMeans slices)) - 1

/-- A constant image. -/
def constImg (w h : ℕ) (v : ℚ) : Image := ⟨w, h, fun _ _ => v⟩

/-- Rotation of a row-major 3×3 kernel pattern by one 45° step: every
border cell moves one position along the border ring (clockwise in image
coordinates), the centre stays put. -/
def rot45 (k : List ℤ) : List ℤ :=
  [k.getD 3 0, k.getD 0 0, k.getD 1 0,
   k.getD 6 0, k.getD 4 0, k.getD 2 0,
   k.getD 7 0, k.getD 8 0, k.getD 5 0]

/-- The base Kirsch pattern (the first kernel of the list): three
contiguous +5 weights on one side, centre 0, −3 elsewhere. -/
def kirschBase : List ℤ := [5, 5, 5, -3, 0, -3, -3, -3, -3]

/-! ### Concrete test inputs

A 48×48 image (the smallest square size whose tiles are larger than one
pixel, since `step = H/24`) with a single bright pixel at the origin, and
a concrete instance of the external Gaussian-smoothing collaborator.
-/

/-- 48×48 raw image: intensity 1 at the origin, 0 elsewhere. -/
def rawEx : Image := ⟨48, 48, fun x y => if x = 0 ∧ y = 0 then 1 else 0⟩

/-- A 3×3 normalized box smoothing with replicated borders. -/
def boxBlur (img : Image) : Image :=
  ⟨img.width, img.height, fun x y =>
    (sample img ((x : ℤ) - 1) ((y : ℤ) - 1) + sample img (x : ℤ) ((y : ℤ) - 1) +
     sample img ((x : ℤ) + 1) ((y : ℤ) - 1) + sample img ((x : ℤ) - 1) (y : ℤ) +
     sample img (x : ℤ) (y : ℤ) + sample img ((x : ℤ) + 1) (y : ℤ) +
     sample img ((x : ℤ) - 1) ((y : ℤ) + 1) + sample img (x : ℤ) ((y : ℤ) + 1) +
     sample img ((x : ℤ) + 1) ((y : ℤ) + 1)) / 9⟩

/-- A concrete stand-in for the external Gaussian-smoothing collaborator:
no smoothing at σ ≤ 2 and the box smoothing at the larger σ. It shares
with the true pair of Gaussian blurs the only facts the statements below
rely on: it is a smoothing that preserves constant images, and the two σ
values used by `process` produce different outputs. -/
def blurEx (sigma : ℚ) (img : Image) : Image :=
  if sigma ≤ 2 then img else boxBlur img

/-- The band-passed 48×48 test image handed to `tiledAnalysis` by `run`. -/
def procEx : Image := process blurEx rawEx

/-- Unit calibration. -/
def calUnit : Calib := ⟨1, 1⟩

/-- The single table row produced by analysing `procEx`: the analysis
processes tile (0,0) (whose band-passed content is not flat), then dies
with the division by zero on tile (2,0) (whose band-passed content is
flat). -/
def rec0Ex : TileRecord := ⟨"t", 0, 1, 1, 0, 1, 200 / 9⟩

/-- The three overlay primitives produced for tile (0,0) of `procEx`. -/
def annotsEx : List Annot := [.rect 0 0 2 2, .arrow 1 1 1 1, .label (-9) 6 0]

/-! ### General lemmas about the directional responses -/

lemma convolve_width (img : Image) (k : List ℤ) : (convolve img k).width = img.width := rfl

lemma convolve_height (img : Image) (k : List ℤ) : (convolve img k).height = img.height := rfl

lemma convolve_pix (img : Image) (k : List ℤ) (x y : ℕ) :
    (convolve img k).pix x y = convAt img k x y := rfl

lemma edgeDirections_length (img : Image) : (edgeDirections img).length = 8 := by
  simp [edgeDirections, dirKernels]

/-- Pointwise, the eight Kirsch convolutions cancel: at every border-ring
position the kernels contribute +5 three times and −3 five times, so the
summed kernel is zero. -/
lemma convAt_sum_zero (img : Image) (x y : ℕ) :
    convAt img [5, 5, 5, -3, 0, -3, -3, -3, -3] x y +
    (convAt img [-3, 5, 5, -3, 0, 5, -3, -3, -3] x y +
    (convAt img [-3, -3, 5, -3, 0, 5, -3, -3, 5] x y +
    (convAt img [-3, -3, -3, -3, 0, 5, -3, 5, 5] x y +
    (convAt img [-3, -3, -3, 5, 0, -3, 5, 5, -3] x y +
    (convAt img [-3, -3, -3, -3, 0, -3, 5, 5, 5] x y +
    (convAt img [5, 5, -3, 5, 0, -3, -3, -3, -3] x y +
     convAt img [5, -3, -3, 5, 0, -3, 5, -3, -3] x y)))))) = 0 := by
  simp only [convAt]
  norm_num
  ring

/-- The eight directional responses always sum to zero: each Kirsch
kernel sums to 0, the convolution is linear in the kernel, and the mean is
linear in the image. -/
lemma edgeDirections_sum (img : Image) : (edgeDirections img).sum = 0 := by
  simp only [edgeDirections, dirKernels, List.map_cons, List.map_nil, List.sum_cons,
    List.sum_nil, add_zero, meanImg, convolve_width, convolve_height, convolve_pix]
  simp only [div_add_div_same]
  rw [div_eq_zero_iff]
  left
  simp only [← Finset.sum_add_distrib]
  apply Finset.sum_eq_zero
  intro y _
  apply Finset.sum_eq_zero
  intro x _
  linarith [convAt_sum_zero img x y]

lemma foldl_min_le (xs : List ℚ) : ∀ x : ℚ,
    xs.foldl min x ≤ x ∧ ∀ a ∈ xs, xs.foldl min x ≤ a := by
  induction xs with
  | nil => intro x; simp
  | cons y ys ih =>
    intro x
    have h := ih (min x y)
    rw [List.foldl_cons]
    refine ⟨le_trans h.1 (min_le_left x y), ?_⟩
    intro a ha
    rcases List.mem_cons.mp ha with h1 | h1
    · subst h1; exact le_trans h.1 (min_le_right _ _)
    · exact h.2 a h1

lemma foldl_min_mem (xs : List ℚ) : ∀ x : ℚ, xs.foldl min x = x ∨ xs.foldl min x ∈ xs := by
  induction xs with
  | nil => intro x; left; rfl
  | cons y ys ih =>
    intro x
    rcases ih (min x y) with h | h
    · rcases min_choice x y with hm | hm
      · left; rw [List.foldl_cons, h, hm]
      · right; rw [List.foldl_cons, h, hm]; exact List.mem_cons_self y ys
    · right; exact List.mem_cons_of_mem y h

/-- Python's `min` bounds every element of a nonempty list from below. -/
lemma pyMin_le (l : List ℚ) (a : ℚ) (ha : a ∈ l) : pyMin l ≤ a := by
  cases l with
  | nil => cases ha
  | cons x xs =>
    rcases List.mem_cons.mp ha with h | h
    · exact h ▸ (foldl_min_le xs x).1
    · exact (foldl_min_le xs x).2 a h

/-- Python's `min` of a nonempty list is one of its elements. -/
lemma pyMin_mem (l : List ℚ) (hl : l ≠ []) : pyMin l ∈ l := by
  cases l with
  | nil => exact absurd rfl hl
  | cons x xs =>
    rcases foldl_min_mem xs x with h | h
    · rw [pyMin, h]; exact List.mem_cons_self x xs
    · exact List.mem_cons_of_mem x h

/-- In a list of nonnegative rationals summing to zero, every element is
zero. -/
lemma all_zero_of_sum_zero (l : List ℚ) (h0 : ∀ a ∈ l, 0 ≤ a) (hs : l.sum = 0) :
    ∀ a ∈ l, a = 0 := by
  induction l with
  | nil => intro a ha; cases ha
  | cons x xs ih =>
    have hx : 0 ≤ x := h0 x (List.mem_cons_self x xs)
    have hxs : 0 ≤ xs.sum := List.sum_nonneg fun a ha => h0 a (List.mem_cons_of_mem x ha)
    rw [List.sum_cons] at hs
    have hx0 : x = 0 := by linarith
    have hs0 : xs.sum = 0 := by linarith
    intro a ha
    rcases List.mem_cons.mp ha with h | h
    · exact h ▸ hx0
    · exact ih (fun a ha => h0 a (List.mem_cons_of_mem x ha)) hs0 a h

/-! ### Structure of the tile-loop output -/

lemma processTiles_cons_skip (ip : Image) (title : String) (cal : Calib)
    (row x y : ℕ) (rest : List (ℕ × ℕ)) (h : ¬keepTile ip.width ip.height x y) :
    processTiles ip title cal row ((x, y) :: rest) = processTiles ip title cal row rest := by
  rw [processTiles, if_pos h]

lemma processTiles_cons_crash (ip : Image) (title : String) (cal : Calib)
    (row x y : ℕ) (rest : List (ℕ × ℕ)) (hk : keepTile ip.width ip.height x y)
    (hsc : scoreOf (edgeDirections (tileAt ip x y)) = none) :
    processTiles ip title cal row ((x, y) :: rest) = ([], [], true) := by
  rw [processTiles, if_neg (not_not_intro hk), hsc]

lemma processTiles_cons_ok (ip : Image) (title : String) (cal : Calib)
    (row x y : ℕ) (rest : List (ℕ × ℕ)) (sc : ℚ) (hk : keepTile ip.width ip.height x y)
    (hsc : scoreOf (edgeDirections (tileAt ip x y)) = some sc) :
    processTiles ip title cal row ((x, y) :: rest) =
      (recAt ip title cal row x y sc :: (processTiles ip title cal (row + 1) rest).1,
       annotsAt ip x y row sc ++ (processTiles ip title cal (row + 1) rest).2.1,
       (processTiles ip title cal (row + 1) rest).2.2) := by
  rw [processTiles, if_neg (not_not_intro hk), hsc]

lemma processTiles_len (ip : Image) (title : String) (cal : Calib) :
    ∀ (anchors : List (ℕ × ℕ)) (row : ℕ),
      (processTiles ip title cal row anchors).2.1.length =
        3 * (processTiles ip title cal row anchors).1.length := by
  intro anchors
  induction anchors with
  | nil => intro row; rfl
  | cons p rest ih =>
    intro row
    obtain ⟨x, y⟩ := p
    by_cases hk : keepTile ip.width ip.height x y
    · rcases hsc : scoreOf (edgeDirections (tileAt ip x y)) with _ | sc
      · rw [processTiles_cons_crash ip title cal row x y rest hk hsc]; rfl
      · rw [processTiles_cons_ok ip title cal row x y rest sc hk hsc]
        dsimp only
        rw [List.length_append, List.length_cons, ih (row + 1)]
        simp [annotsAt]
        ring
    · rw [processTiles_cons_skip ip title cal row x y rest hk]
      exact ih row

lemma processTiles_rec (ip : Image) (title : String) (cal : Calib) :
    ∀ (anchors : List (ℕ × ℕ)) (row i : ℕ) (r : TileRecord),
      (processTiles ip title cal row anchors).1.get? i = some r →
      r.tile = row + i ∧
      ∃ x y, (x, y) ∈ anchors ∧ keepTile ip.width ip.height x y ∧
        r.fibreIntensity = meanImg (tileAt ip x y) := by
  intro anchors
  induction anchors with
  | nil => intro row i r h; simp [processTiles] at h
  | cons p rest ih =>
    intro row i r h
    obtain ⟨x, y⟩ := p
    by_cases hk : keepTile ip.width ip.height x y
    · rcases hsc : scoreOf (edgeDirections (tileAt ip x y)) with _ | sc
      · rw [processTiles_cons_crash ip title cal row x y rest hk hsc] at h
        simp at h
      · rw [processTiles_cons_ok ip title cal row x y rest sc hk hsc] at h
        dsimp only at h
        cases i with
        | zero =>
          rw [List.get?_cons_zero] at h
          obtain rfl := Option.some.inj h
          exact ⟨rfl, x, y, List.mem_cons_self _ _, hk, rfl⟩
        | succ i =>
          rw [List.get?_cons_succ] at h
          obtain ⟨ht, x', y', hm, hk', hf⟩ := ih (row + 1) i r h
          exact ⟨by omega, x', y', List.mem_cons_of_mem _ hm, hk', hf⟩
    · rw [processTiles_cons_skip ip title cal row x y rest hk] at h
      obtain ⟨ht, x', y', hm, hk', hf⟩ := ih row i r h
      exact ⟨ht, x', y', List.mem_cons_of_mem _ hm, hk', hf⟩

lemma processTiles_annots (ip : Image) (title : String) (cal : Calib) :
    ∀ (anchors : List (ℕ × ℕ)) (row i : ℕ),
      i < (processTiles ip title cal row anchors).1.length →
      ∃ x y, (x, y) ∈ anchors ∧ keepTile ip.width ip.height x y ∧
        (processTiles ip title cal row anchors).2.1.get? (3 * i) =
          some (Annot.rect (x - tileOverlap ip.height) (y - tileOverlap ip.height)
            (tileStep ip.height + tileOverlap ip.height * 2)
            (tileStep ip.height + tileOverlap ip.height * 2)) ∧
        (∃ th f, (processTiles ip title cal row anchors).2.1.get? (3 * i + 1) =
          some (Annot.arrow (x + tileStep ip.height / 2) (y + tileStep ip.height / 2) th f)) ∧
        (processTiles ip title cal row anchors).2.1.get? (3 * i + 2) =
          some (Annot.label ((x : ℤ) + ((tileStep ip.height / 2 : ℕ) : ℤ) - 10)
            ((y : ℤ) + 6) (row + i)) := by
  intro anchors
  induction anchors with
  | nil => intro row i h; simp [processTiles] at h
  | cons p rest ih =>
    intro row i h
    obtain ⟨x, y⟩ := p
    by_cases hk : keepTile ip.width ip.height x y
    · rcases hsc : scoreOf (edgeDirections (tileAt ip x y)) with _ | sc
      · rw [processTiles_cons_crash ip title cal row x y rest hk hsc] at h
        simp at h
      · rw [processTiles_cons_ok ip title cal row x y rest sc hk hsc] at h ⊢
        dsimp only at h ⊢
        cases i with
        | zero =>
          refine ⟨x, y, List.mem_cons_self _ _, hk, ?_,
            ⟨thetaAt ip x y, max 0 (min sc 1), ?_⟩, ?_⟩
          · simp [annotsAt]
          · simp [annotsAt]
          · simp [annotsAt]
        | succ i =>
          rw [List.length_cons, Nat.succ_lt_succ_iff] at h
          obtain ⟨x', y', hm, hk', h0, ⟨th, f, h1⟩, h2⟩ := ih (row + 1) i h
          refine ⟨x', y', List.mem_cons_of_mem _ hm, hk', ?_, ⟨th, f, ?_⟩, ?_⟩
          · rw [show 3 * (i + 1) = 3 + 3 * i by ring]
            rw [List.get?_append_right (by simp [annotsAt])]
            simpa [annotsAt] using h0
          · rw [show 3 * (i + 1) + 1 = 3 + (3 * i + 1) by ring]
            rw [List.get?_append_right (by simp [annotsAt])]
            simpa [annotsAt] using h1
          · rw [show 3 * (i + 1) + 2 = 3 + (3 * i + 2) by ring]
            rw [List.get?_append_right (by simp [annotsAt])]
            have he : row + 1 + i = row + (i + 1) := by omega
            rw [he] at h2
            simpa [annotsAt] using h2
    · rw [processTiles_cons_skip ip title cal row x y rest hk] at h ⊢
      obtain ⟨x', y', hm, hk', h0, h1, h2⟩ := ih row i h
      exact ⟨x', y', List.mem_cons_of_mem _ hm, hk', h0, h1, h2⟩

/-! ### The batch level -/

/-- The external smoothing returns an image of the same dimensions (true
of ImageJ's in-place `blurGaussian`). -/
def dimPreserving (blur : ℚ → Image → Image) : Prop :=
  ∀ s i, (blur s i).width = i.width ∧ (blur s i).height = i.height

lemma process_dims (blur : ℚ → Image → Image) (hdim : dimPreserving blur) (img : Image) :
    (process blur img).width = img.width ∧ (process blur img).height = img.height := by
  rw [process]
  exact ⟨(hdim sigmaPx img).1, (hdim sigmaPx img).2⟩

lemma runOne_of_crashed (blur : ℚ → Image → Image) (cal : Calib) (st : BatchState)
    (item : String × Image) (h : st.crashed = true) : runOne blur cal st item = st := by
  rw [runOne, if_pos h]

lemma runOne_nonsquare (blur : ℚ → Image → Image) (hdim : dimPreserving blur)
    (cal : Calib) (st : BatchState) (t : String) (bad : Image)
    (hbad : bad.width ≠ bad.height) (h : st.crashed = false) :
    runOne blur cal st (t, bad) =
      { st with overlays := st.overlays ++ [[]],
                errors := st.errors ++ ["Image is not square"] } := by
  have hta : tiledAnalysis st.table.length (process blur bad) t cal = none := by
    rw [tiledAnalysis, if_pos]
    rw [(process_dims blur hdim bad).1, (process_dims blur hdim bad).2]
    exact hbad
  rw [runOne, if_neg (by simp [h])]
  rw [hta]

/-- The evolution of the table and the crash flag depends only on the
table and the crash flag (the overlays and the error dialogs never feed
back into the analysis). -/
lemma processFrom_table_det (blur : ℚ → Image → Image) (cal : Calib) :
    ∀ (items : List (String × Image)) (s s' : BatchState),
      s.table = s'.table → s.crashed = s'.crashed →
      (processFrom blur cal s items).table = (processFrom blur cal s' items).table ∧
      (processFrom blur cal s items).crashed = (processFrom blur cal s' items).crashed := by
  intro items
  induction items with
  | nil => intro s s' ht hc; exact ⟨ht, hc⟩
  | cons item rest ih =>
    intro s s' ht hc
    rw [show processFrom blur cal s (item :: rest) =
          processFrom blur cal (runOne blur cal s item) rest from rfl,
        show processFrom blur cal s' (item :: rest) =
          processFrom blur cal (runOne blur cal s' item) rest from rfl]
    apply ih
    · rw [runOne, runOne, ht, hc]
      by_cases h : s'.crashed = true
      · rw [if_pos h, if_pos h, ht]
      · rw [if_neg h, if_neg h]
        rcases tiledAnalysis s'.table.length (process blur item.2) item.1 cal
          with _ | ⟨rs, annots, cr⟩
        · simp
        · cases cr <;> simp
    · rw [runOne, runOne, ht, hc]
      by_cases h : s'.crashed = true
      · rw [if_pos h, if_pos h, hc]
      · rw [if_neg h, if_neg h]
        rcases tiledAnalysis s'.table.length (process blur item.2) item.1 cal
          with _ | ⟨rs, annots, cr⟩
        · simp
        · cases cr <;> simp

lemma processFrom_append (blur : ℚ → Image → Image) (cal : Calib)
    (l1 l2 : List (String × Image)) (s : BatchState) :
    processFrom blur cal s (l1 ++ l2) = processFrom blur cal (processFrom blur cal s l1) l2 := by
  rw [processFrom, processFrom, processFrom, List.foldl_append]

/-! ### Tile indices in the shared table -/

/-- Every row of the analysis output carries the tile index at which it
was written. -/
lemma tiledAnalysis_rec (startRow : ℕ) (ip : Image) (title : String) (cal : Calib)
    (rs : List TileRecord) (annots : List Annot) (cr : Bool)
    (h : tiledAnalysis startRow ip title cal = some (rs, annots, cr)) :
    ∀ i r, rs.get? i = some r → r.tile = startRow + i := by
  intro i r hr
  rw [tiledAnalysis] at h
  by_cases hsq : ip.width ≠ ip.height
  · rw [if_pos hsq] at h; cases h
  · rw [if_neg hsq] at h
    by_cases hst : tileStep ip.height = 0
    · rw [if_pos hst] at h
      obtain ⟨rfl, rfl, rfl⟩ := Prod.mk.injEq .. ▸ (Option.some.inj h)
      cases hr
    · rw [if_neg hst] at h
      obtain h' := Option.some.inj h
      have := processTiles_rec ip title cal (candAnchors ip.width ip.height) startRow i r
      rw [h'] at this
      exact (this hr).1

/-- The invariant of the shared table: every row's `Tile` value equals its
position. -/
def tableOk (l : List TileRecord) : Prop := ∀ i r, l.get? i = some r → r.tile = i

lemma runOne_tableOk (blur : ℚ → Image → Image) (cal : Calib) (st : BatchState)
    (item : String × Image) (h : tableOk st.table) :
    tableOk (runOne blur cal st item).table := by
  rw [runOne]
  by_cases hc : st.crashed = true
  · rw [if_pos hc]; exact h
  · rw [if_neg hc]
    rcases hta : tiledAnalysis st.table.length (process blur item.2) item.1 cal
      with _ | ⟨rs, annots, cr⟩
    · exact h
    · have hnew : tableOk (st.table ++ rs) := by
        intro i r hr
        by_cases hi : i < st.table.length
        · rw [List.get?_append hi] at hr
          exact h i r hr
        · rw [List.get?_append_right (by omega)] at hr
          have := tiledAnalysis_rec st.table.length (process blur item.2) item.1 cal
            rs annots cr hta (i - st.table.length) r hr
          omega
      cases cr
      · simpa using hnew
      · simpa using hnew

lemma processFrom_tableOk (blur : ℚ → Image → Image) (cal : Calib) :
    ∀ (items : List (String × Image)) (st : BatchState),
      tableOk st.table → tableOk (processFrom blur cal st items).table := by
  intro items
  induction items with
  | nil => intro st h; exact h
  | cons item rest ih =>
    intro st h
    rw [show processFrom blur cal st (item :: rest) =
          processFrom blur cal (runOne blur cal st item) rest from rfl]
    exact ih _ (runOne_tableOk blur cal st item h)

/-! ### The slice selector -/

lemma selectGo_none (l : List ℚ) :
    ∀ (z : ℕ) (mM : ℚ) (mz : ℤ), (∀ v ∈ l, ¬mM < v) → selectGo l z mM mz = mz := by
  induction l with
  | nil => intro z mM mz _; rfl
  | cons v rest ih =>
    intro z mM mz h
    rw [selectGo, if_neg (h v (List.mem_cons_self _ _))]
    exact ih (z + 1) mM mz fun w hw => h w (List.mem_cons_of_mem _ hw)

lemma selectGo_found (l : List ℚ) :
    ∀ (z : ℕ) (mM : ℚ) (mz : ℤ), (∃ v ∈ l, mM < v) →
      ∃ k : ℕ, k < l.length ∧ selectGo l z mM mz = ((z + k : ℕ) : ℤ) ∧
        mM < l.getD k 0 ∧ (∀ j, j < l.length → l.getD j 0 ≤ l.getD k 0) ∧
        ∀ j, j < k → l.getD j 0 < l.getD k 0 := by
  induction l with
  | nil => rintro z mM mz ⟨v, hv, _⟩; cases hv
  | cons v rest ih =>
    intro z mM mz hex
    by_cases hv : mM < v
    · rw [selectGo, if_pos hv]
      by_cases hrest : ∃ w ∈ rest, v < w
      · obtain ⟨k, hk, heq, hlt, hall, hfirst⟩ := ih (z + 1) v (z : ℤ) hrest
        refine ⟨k + 1, by simpa using Nat.succ_lt_succ hk, ?_, ?_, ?_, ?_⟩
        · rw [heq]; congr 1; omega
        · rw [List.getD_cons_succ]; exact lt_trans hv hlt
        · intro j hj
          cases j with
          | zero =>
            rw [List.getD_cons_zero, List.getD_cons_succ]
            exact le_of_lt hlt
          | succ j =>
            rw [List.getD_cons_succ, List.getD_cons_succ]
            exact hall j (by simpa using Nat.lt_of_succ_lt_succ hj)
        · intro j hj
          cases j with
          | zero => rw [List.getD_cons_zero, List.getD_cons_succ]; exact hlt
          | succ j =>
            rw [List.getD_cons_succ, List.getD_cons_succ]
            exact hfirst j (Nat.lt_of_succ_lt_succ hj)
      · push_neg at hrest
        rw [selectGo_none rest (z + 1) v (z : ℤ) fun w hw => not_lt.mpr (hrest w hw)]
        refine ⟨0, by simp, by simp, by simpa using hv, ?_, by omega⟩
        intro j hj
        cases j with
        | zero => exact le_refl _
        | succ j =>
          rw [List.getD_cons_succ, List.getD_cons_zero]
          have hj' : j < rest.length := by simpa using Nat.lt_of_succ_lt_succ hj
          rw [List.getD_eq_getElem rest 0 hj']
          exact hrest _ (List.getElem_mem hj')
    · rw [selectGo, if_neg hv]
      have hex' : ∃ w ∈ rest, mM < w := by
        obtain ⟨w, hw, hltw⟩ := hex
        rcases List.mem_cons.mp hw with rfl | hw'
        · exact absurd hltw hv
        · exact ⟨w, hw', hltw⟩
      obtain ⟨k, hk, heq, hlt, hall, hfirst⟩ := ih (z + 1) mM mz hex'
      refine ⟨k + 1, by simpa using Nat.succ_lt_succ hk, ?_, ?_, ?_, ?_⟩
      · rw [heq]; congr 1; omega
      · rw [List.getD_cons_succ]; exact hlt
      · intro j hj
        cases j with
        | zero =>
          rw [List.getD_cons_zero, List.getD_cons_succ]
          exact le_trans (not_lt.mp hv) (le_of_lt hlt)
        | succ j =>
          rw [List.getD_cons_succ, List.getD_cons_succ]
          exact hall j (by simpa using Nat.lt_of_succ_lt_succ hj)
      · intro j hj
        cases j with
        | zero =>
          rw [List.getD_cons_zero, List.getD_cons_succ]
          exact lt_of_le_of_lt (not_lt.mp hv) hlt
        | succ j =>
          rw [List.getD_cons_succ, List.getD_cons_succ]
          exact hfirst j (Nat.lt_of_succ_lt_succ hj)

/-! ### The anchor grid -/

lemma pyRange_count (a b s : ℕ) (hs : 0 < s) (i : ℕ) :
    i < (if b ≤ a then 0 else (b - a + s - 1) / s) ↔ a + i * s < b := by
  split
  · constructor
    · omega
    · intro h
      have hsi : a ≤ a + i * s := Nat.le_add_right a _
      omega
  · rw [Nat.lt_iff_add_one_le, Nat.le_div_iff_mul_le hs, Nat.succ_mul]
    generalize i * s = t
    omega

lemma pyRange_mem (a b s : ℕ) (hs : 0 < s) (v : ℕ) :
    v ∈ pyRange a b s ↔ (∃ k, v = a + k * s) ∧ v < b := by
  unfold pyRange
  simp only [List.mem_map, List.mem_range]
  constructor
  · rintro ⟨i, hi, rfl⟩
    exact ⟨⟨i, rfl⟩, (pyRange_count a b s hs i).mp hi⟩
  · rintro ⟨⟨k, rfl⟩, hv⟩
    exact ⟨k, (pyRange_count a b s hs k).mpr hv, rfl⟩

/-! ### Evaluation of the concrete test inputs -/

lemma toNat_negOne : (-1 : ℤ).toNat = 0 := by decide

lemma blurEx_lo (img : Image) : blurEx 2 img = img := by
  rw [blurEx, if_pos]; norm_num

lemma blurEx_hi (img : Image) : blurEx (2 * (14 / 10)) img = boxBlur img := by
  rw [blurEx, if_neg]; norm_num

lemma procEx_eq : procEx = imgSub rawEx (boxBlur rawEx) := by
  rw [procEx, process, sigmaPx, blurEx_lo, blurEx_hi]

lemma procEx_pix00 : procEx.pix 0 0 = 5 / 9 := by
  rw [procEx_eq]; norm_num [imgSub, boxBlur, sample, rawEx]

lemma procEx_pix10 : procEx.pix 1 0 = -(2 / 9) := by
  rw [procEx_eq]; norm_num [imgSub, boxBlur, sample, rawEx]

lemma procEx_pix01 : procEx.pix 0 1 = -(2 / 9) := by
  rw [procEx_eq]; norm_num [imgSub, boxBlur, sample, rawEx]

lemma procEx_pix11 : procEx.pix 1 1 = -(1 / 9) := by
  rw [procEx_eq]; norm_num [imgSub, boxBlur, sample, rawEx]

lemma procEx_pix20 : procEx.pix 2 0 = 0 := by
  rw [procEx_eq]; norm_num [imgSub, boxBlur, sample, rawEx]

lemma procEx_pix30 : procEx.pix 3 0 = 0 := by
  rw [procEx_eq]; norm_num [imgSub, boxBlur, sample, rawEx]

lemma procEx_pix21 : procEx.pix 2 1 = 0 := by
  rw [procEx_eq]; norm_num [imgSub, boxBlur, sample, rawEx]

lemma procEx_pix31 : procEx.pix 3 1 = 0 := by
  rw [procEx_eq]; norm_num [imgSub, boxBlur, sample, rawEx]

lemma procEx_width : procEx.width = 48 := by rw [procEx_eq]; rfl

lemma procEx_height : procEx.height = 48 := by rw [procEx_eq]; rfl

/-- The responses of the first tile of `procEx` (anchor (0,0), bounds
0..2 × 0..2). -/
lemma edir_tile0 : edgeDirections (crop procEx 0 0 2 2) =
    [4, -(16 / 9), -4, -(32 / 9), -(16 / 9), -4, 64 / 9, 4] := by
  norm_num [edgeDirections, dirKernels, convolve, convAt, meanImg, crop, sample,
    procEx_width, procEx_height, Finset.sum_range_succ, toNat_negOne,
    procEx_pix00, procEx_pix10, procEx_pix01, procEx_pix11]

/-- The responses of the second tile of `procEx` (anchor (2,0)): its
band-passed content is flat, so all responses vanish. -/
lemma edir_tile1 : edgeDirections (crop procEx 2 0 2 2) = [0, 0, 0, 0, 0, 0, 0, 0] := by
  norm_num [edgeDirections, dirKernels, convolve, convAt, meanImg, crop, sample,
    procEx_width, procEx_height, Finset.sum_range_succ, toNat_negOne,
    procEx_pix20, procEx_pix30, procEx_pix21, procEx_pix31]

lemma score_tile0 : scoreOf (edgeDirections (crop procEx 0 0 2 2)) = some (200 / 9) := by
  rw [edir_tile0]
  norm_num [scoreOf, fdiv, pyMax, pyMin, max_def, min_def]

lemma score_tile1 : scoreOf (edgeDirections (crop procEx 2 0 2 2)) = none := by
  rw [edir_tile1]
  norm_num [scoreOf, fdiv, pyMax, pyMin, max_def, min_def]

lemma maxi_tile0 :
    (edgeDirections (crop procEx 0 0 2 2)).indexOf
      (pyMax (edgeDirections (crop procEx 0 0 2 2))) = 6 := by
  rw [edir_tile0]
  have hmax : pyMax [4, -(16 / 9), -4, -(32 / 9), -(16 / 9), -4, 64 / 9, (4 : ℚ)] = 64 / 9 := by
    norm_num [pyMax, max_def]
  rw [hmax]
  rw [List.indexOf_cons_ne _ (by norm_num), List.indexOf_cons_ne _ (by norm_num),
    List.indexOf_cons_ne _ (by norm_num), List.indexOf_cons_ne _ (by norm_num),
    List.indexOf_cons_ne _ (by norm_num), List.indexOf_cons_ne _ (by norm_num),
    List.indexOf_cons_self]

lemma mean_tile0 : meanImg (crop procEx 0 0 2 2) = 0 := by
  norm_num [meanImg, crop, procEx_width, procEx_height, Finset.sum_range_succ,
    procEx_pix00, procEx_pix10, procEx_pix01, procEx_pix11]

lemma mean_rawEx_tile0 : meanImg (crop rawEx 0 0 2 2) = 1 / 4 := by
  norm_num [meanImg, crop, rawEx, Finset.sum_range_succ]

lemma theta_tile0 : normAngle (thetaRaw 6 8) = 1 := by
  norm_num [normAngle, thetaRaw]

lemma cand48_take : (candAnchors 48 48).take 2 = [(0, 0), (2, 0)] := by decide

lemma cand48_cons : ∃ rest, candAnchors 48 48 = (0, 0) :: (2, 0) :: rest := by
  have h := List.take_append_drop 2 (candAnchors 48 48)
  rw [cand48_take] at h
  exact ⟨_, h.symm⟩

lemma tileAt00 : tileAt procEx 0 0 = crop procEx 0 0 2 2 := by
  rw [tileAt, procEx_height]
  norm_num [tileStep, tileOverlap, nRows]

lemma tileAt20 : tileAt procEx 2 0 = crop procEx 2 0 2 2 := by
  rw [tileAt, procEx_height]
  norm_num [tileStep, tileOverlap, nRows]

/-- Full evaluation of the analysis of the band-passed test image: one
row for tile (0,0), its three overlay primitives, then the crash on the
flat tile (2,0). -/
lemma tiledAnalysis_procEx :
    tiledAnalysis 0 procEx "t" calUnit = some ([rec0Ex], annotsEx, true) := by
  obtain ⟨rest, hr⟩ := cand48_cons
  rw [tiledAnalysis, if_neg (by rw [procEx_width, procEx_height]; omega),
    if_neg (by rw [procEx_height]; decide), procEx_width, procEx_height, hr]
  rw [processTiles, if_neg (by rw [procEx_width, procEx_height]; decide),
    tileAt00, score_tile0]
  dsimp only
  rw [processTiles, if_neg (by rw [procEx_width, procEx_height]; decide),
    tileAt20, score_tile1]
  norm_num [recAt, annotsAt, thetaAt, tileAt00, rec0Ex, annotsEx, calUnit,
    mean_tile0, maxi_tile0, edgeDirections_length, theta_tile0, max_def, min_def,
    tileStep, tileOverlap, nRows, procEx_height]

lemma blurEx_dim : dimPreserving blurEx := by
  intro s i
  rw [blurEx]
  split
  · exact ⟨rfl, rfl⟩
  · exact ⟨rfl, rfl⟩

lemma keptAnchors_mem (W H x y : ℕ) :
    (x, y) ∈ keptAnchors W H ↔ (x, y) ∈ candAnchors W H ∧ keepTile W H x y := by
  simp [keptAnchors, List.mem_filter]

/-- The responses of the first tile of a constant image all vanish (each
kernel sums to zero). -/
lemma edir_const48_tile0 :
    edgeDirections (tileAt (constImg 48 48 5) 0 0) = [0, 0, 0, 0, 0, 0, 0, 0] := by
  norm_num [edgeDirections, dirKernels, convolve, convAt, meanImg, tileAt, crop,
    sample, constImg, tileStep, tileOverlap, nRows, Finset.sum_range_succ, toNat_negOne]

/-- Analysing a flat image dies immediately: the very first tile passes
the boundary check, its eight responses are all zero and the score is a
division by zero — no row and no overlay primitive is produced. -/
lemma tiledAnalysis_const48 :
    tiledAnalysis 0 (constImg 48 48 5) "t" calUnit = some ([], [], true) := by
  obtain ⟨rest, hr⟩ := cand48_cons
  rw [tiledAnalysis, if_neg (by norm_num [constImg]), if_neg (by decide)]
  rw [show (constImg 48 48 5).width = 48 from rfl,
    show (constImg 48 48 5).height = 48 from rfl, hr]
  rw [processTiles, if_neg (by decide)]
  rw [show scoreOf (edgeDirections (tileAt (constImg 48 48 5) 0 0)) = none from by
    rw [edir_const48_tile0]; norm_num [scoreOf, fdiv, pyMax, pyMin, max_def, min_def]]

/-- The responses of a flat 3×3 tile. -/
lemma edir_const335 : edgeDirections (constImg 3 3 5) = [0, 0, 0, 0, 0, 0, 0, 0] := by
  norm_num [edgeDirections, dirKernels, convolve, convAt, meanImg, crop, sample,
    constImg, Finset.sum_range_succ, toNat_negOne]

lemma allEqual_const335 : allEqual (edgeDirections (constImg 3 3 5)) := by
  rw [edir_const335]
  intro a ha b hb
  simp only [List.mem_cons, List.not_mem_nil, or_false] at ha hb
  rcases ha with h | h | h | h | h | h | h | h <;> rcases hb with h' | h' | h' | h' | h' | h' | h' | h' <;>
    rw [h, h']

/-- A whole batch run on the single test image: the table gets the one
row of `procEx` and the run dies with the tile-(2,0) exception before the
overlay is displayed. -/
lemma batch_rawEx : processBatch blurEx calUnit [("t", rawEx)] = ⟨[rec0Ex], [], [], true⟩ := by
  rw [processBatch, processFrom, List.foldl_cons, List.foldl_nil, runOne,
    if_neg (by rw [show batchInit.crashed = false from rfl]; simp)]
  rw [show (batchInit.table.length) = 0 from rfl,
    show process blurEx ("t", rawEx).2 = procEx from rfl, tiledAnalysis_procEx]
  rfl

lemma mean_const11 (v : ℚ) : meanImg (constImg 1 1 v) = v := by
  norm_num [meanImg, constImg, Finset.sum_range_succ]

lemma clampSlice_coe (n z : ℕ) (hz : z < n) : clampSlice n (z : ℤ) = max z 1 := by
  rw [clampSlice]
  split
  · omega
  · split
    · omega
    · omega

/-- The 0-based index the scan reads at loop iteration `z`: the clamped
1-based slice minus one, i.e. `z - 1` in ℕ (slice 0 for both `z = 0` and
`z = 1`). -/
lemma clampSlice_idx (n z : ℕ) (hz : z < n) : clampSlice n (z : ℤ) - 1 = z - 1 := by
  rw [clampSlice_coe n z hz]
  rcases Nat.eq_zero_or_pos z with rfl | hzpos
  · decide
  · rw [Nat.max_eq_left hzpos]

lemma clampSlice_negOne (n : ℕ) (_hn : 0 < n) : clampSlice n (-1) = 1 := by
  rw [clampSlice, if_pos (by norm_num)]

lemma scannedMeans_length (slices : List Image) :
    (scannedMeans slices).length = slices.length := by
  simp [scannedMeans]

lemma scannedMeans_getD (slices : List Image) (z : ℕ) (hz : z < slices.length) :
    (scannedMeans slices).getD z 0 =
      meanImg (slices.getD (clampSlice slices.length (z : ℤ) - 1) emptyImg) := by
  rw [scannedMeans, List.getD_eq_getElem _ _ (by simpa using hz), List.getElem_map,
    List.getElem_range]

/-- The scanned means of the two-slice counterexample: both iterations
read slice 1 (means 0), the second slice (mean 5) is never scanned. -/
lemma scannedMeans_cex :
    scannedMeans [constImg 1 1 0, constImg 1 1 5] = [0, 0] := by
  rw [scannedMeans,
    show ([constImg 1 1 0, constImg 1 1 5] : List Image).length = 2 from rfl,
    show List.range 2 = [0, 1] from by decide]
  simp only [List.map_cons, List.map_nil]
  rw [show clampSlice 2 ((0 : ℕ) : ℤ) = 1 from by rw [clampSlice]; norm_num,
    show clampSlice 2 ((1 : ℕ) : ℤ) = 1 from by rw [clampSlice]; norm_num]
  norm_num [mean_const11]

lemma selectSliceIdx_cex : selectSliceIdx [constImg 1 1 0, constImg 1 1 5] = 0 := by
  rw [selectSliceIdx, selectMaxZ, scannedMeans_cex]
  rw [selectGo, if_pos (by norm_num), selectGo, if_neg (by norm_num), selectGo]
  rw [show ([constImg 1 1 0, constImg 1 1 5] : List Image).length = 2 from rfl,
    show ((0 : ℕ) : ℤ) = (0 : ℤ) from rfl,
    show clampSlice 2 (0 : ℤ) = 1 from by rw [clampSlice]; norm_num]

/-! ### The claims -/

/-- Claim C1, as stated, is false: the analysis receives the band-passed
image (`run` passes `proc = process(actin)` to `tiledAnalysis`), and the
recorded `fibreIntensity` is the mean of the tile cropped from that
filtered image, not from the raw one. Concretely, on the 48×48 test image
the record of tile (0,0) — an anchor that passes the boundary check —
carries intensity 0 (the filtered tile mean), while the raw tile over the
same bounds (0,0)–(2,2) has mean 1/4. -/
theorem C1_counterexample :
    (0, 0) ∈ keptAnchors procEx.width procEx.height ∧
    tiledAnalysis 0 procEx "t" calUnit = some ([rec0Ex], annotsEx, true) ∧
    rec0Ex.fibreIntensity = meanImg (tileAt procEx 0 0) ∧
    meanImg (crop rawEx 0 0 2 2) = 1 / 4 ∧
    rec0Ex.fibreIntensity ≠ meanImg (crop rawEx 0 0 2 2) := by
  refine ⟨?_, tiledAnalysis_procEx, ?_, mean_rawEx_tile0, ?_⟩
  · rw [procEx_width, procEx_height]; decide
  · rw [tileAt00, show rec0Ex.fibreIntensity = 0 from rfl]
    exact mean_tile0.symm
  · rw [mean_rawEx_tile0, show rec0Ex.fibreIntensity = 0 from rfl]
    norm_num

/-- Claim C1, amended: for every record produced by the tiled analysis of
the band-passed image `process blur raw`, the `fibreIntensity` field is
the mean of the tile cropped from that band-passed image (over the kept
anchor's bounds) — not the mean of the raw tile. -/
theorem C1_thm (blur : ℚ → Image → Image) (raw : Image) (title : String) (cal : Calib)
    (row : ℕ) (rs : List TileRecord) (annots : List Annot) (cr : Bool)
    (h : tiledAnalysis row (process blur raw) title cal = some (rs, annots, cr))
    (i : ℕ) (r : TileRecord) (hr : rs.get? i = some r) :
    ∃ x y, (x, y) ∈ keptAnchors (process blur raw).width (process blur raw).height ∧
      r.fibreIntensity = meanImg (tileAt (process blur raw) x y) := by
  rw [tiledAnalysis] at h
  by_cases hsq : (process blur raw).width ≠ (process blur raw).height
  · rw [if_pos hsq] at h; cases h
  · rw [if_neg hsq] at h
    by_cases hst : tileStep (process blur raw).height = 0
    · rw [if_pos hst] at h
      obtain ⟨rfl, rfl, rfl⟩ := Prod.mk.injEq .. ▸ (Option.some.inj h)
      cases hr
    · rw [if_neg hst] at h
      obtain h' := Option.some.inj h
      have hrec := processTiles_rec (process blur raw) title cal
        (candAnchors (process blur raw).width (process blur raw).height) row i r
      rw [h'] at hrec
      obtain ⟨_, x, y, hm, hk, hf⟩ := hrec hr
      exact ⟨x, y, (keptAnchors_mem _ _ x y).mpr ⟨hm, hk⟩, hf⟩

/-- Witness for the amended C1 at the concrete 48×48 input. -/
theorem C1_witness :
    ∃ x y, (x, y) ∈ keptAnchors (process blurEx rawEx).width (process blurEx rawEx).height ∧
      rec0Ex.fibreIntensity = meanImg (tileAt (process blurEx rawEx) x y) :=
  C1_thm blurEx rawEx "t" calUnit 0 [rec0Ex] annotsEx true tiledAnalysis_procEx 0 rec0Ex rfl

/-- Claim C2, as stated, is false: the fold does not land in `[0, π)` for
every `maxIndex` in 0..7. Angles are in units of π: for `maxIndex = 7`
the raw angle is `9π/4`; the fold subtracts π only once and returns
`5π/4`, which is not below π. (`maxIndex = 2` and `6` return exactly π.) -/
theorem C2_counterexample :
    normAngle (thetaRaw 7 8) = 5 / 4 ∧ ¬normAngle (thetaRaw 7 8) < 1 := by
  norm_num [normAngle, thetaRaw]

/-- Claim C2, amended: for `maxIndex` in 0..7 the folded angle (in units
of π) is always nonnegative and at most `5π/4`; it is strictly below π
exactly when `maxIndex` is none of 2, 6, 7 (2 and 6 give exactly π, and 7
gives `5π/4`). -/
theorem C2_thm (m : ℕ) (hm : m ≤ 7) :
    0 ≤ normAngle (thetaRaw m 8) ∧ normAngle (thetaRaw m 8) ≤ 5 / 4 ∧
      (normAngle (thetaRaw m 8) < 1 ↔ m ≠ 2 ∧ m ≠ 6 ∧ m ≠ 7) := by
  interval_cases m <;> norm_num [normAngle, thetaRaw]

/-- Witness for the amended C2 at `maxIndex = 3`. -/
theorem C2_witness :
    (3 : ℕ) ≤ 7 ∧ (0 ≤ normAngle (thetaRaw 3 8) ∧ normAngle (thetaRaw 3 8) ≤ 5 / 4 ∧
      (normAngle (thetaRaw 3 8) < 1 ↔ (3 : ℕ) ≠ 2 ∧ (3 : ℕ) ≠ 6 ∧ (3 : ℕ) ≠ 7)) :=
  ⟨by norm_num, C2_thm 3 (by norm_num)⟩

/-- Claim C3: the code is wrong. Whenever the eight directional responses
of a tile are all numerically equal, they are in fact all zero (the
responses always sum to zero), so `edgeSum - edgeMin = 0` and the score
computation raises `ZeroDivisionError` (`none`) instead of yielding the
mandated `score = 0`. -/
theorem C3_thm (img : Image) (hall : allEqual (edgeDirections img)) :
    scoreOf (edgeDirections img) = none := by
  have hsum := edgeDirections_sum img
  have hlen := edgeDirections_length img
  have hne : edgeDirections img ≠ [] := by
    intro h0; rw [h0] at hlen; cases hlen
  have hmem := pyMin_mem _ hne
  have hall0 : ∀ a ∈ edgeDirections img, a = pyMin (edgeDirections img) :=
    fun a ha => hall a ha _ hmem
  have hrep : edgeDirections img = List.replicate 8 (pyMin (edgeDirections img)) :=
    List.eq_replicate.mpr ⟨hlen, hall0⟩
  have hsum8 : (List.replicate 8 (pyMin (edgeDirections img))).sum = 0 := hrep ▸ hsum
  rw [List.sum_replicate, nsmul_eq_mul] at hsum8
  have hm : pyMin (edgeDirections img) = 0 := by
    field_simp at hsum8
    linarith
  rw [scoreOf, fdiv, if_pos (by rw [hsum, hm]; ring)]
  rfl

/-- Witness: a flat 3×3 tile has all-equal (all-zero) responses and the
unguarded division makes the scoring step fail. -/
theorem C3_witness :
    allEqual (edgeDirections (constImg 3 3 5)) ∧
      scoreOf (edgeDirections (constImg 3 3 5)) = none :=
  ⟨allEqual_const335, C3_thm (constImg 3 3 5) allEqual_const335⟩

/-- Claim C4: for every tile whose eight directional responses are not
all equal, the recorded score is exactly
`((max - min) / (sum - min)) * 8` over those responses. The division is
safe: the responses always sum to zero, so if the minimum were zero all
responses would be nonnegative with zero sum, hence all zero — all equal,
contradiction. -/
theorem C4_thm (img : Image) (hne : ¬allEqual (edgeDirections img)) :
    scoreOf (edgeDirections img) =
      some (((pyMax (edgeDirections img) - pyMin (edgeDirections img)) /
        ((edgeDirections img).sum - pyMin (edgeDirections img))) * 8) := by
  have hsum := edgeDirections_sum img
  have hd : (edgeDirections img).sum - pyMin (edgeDirections img) ≠ 0 := by
    rw [hsum]
    intro h0
    have hm : pyMin (edgeDirections img) = 0 := by linarith
    have h00 : ∀ a ∈ edgeDirections img, (0 : ℚ) ≤ a :=
      fun a ha => hm ▸ pyMin_le _ a ha
    have hz := all_zero_of_sum_zero _ h00 hsum
    exact hne fun a ha b hb => by rw [hz a ha, hz b hb]
  rw [scoreOf, fdiv, if_neg hd]
  rfl

/-- Witness for C4 at the non-flat tile (0,0) of the 48×48 test image. -/
theorem C4_witness :
    ¬allEqual (edgeDirections (crop procEx 0 0 2 2)) ∧
      scoreOf (edgeDirections (crop procEx 0 0 2 2)) =
        some (((pyMax (edgeDirections (crop procEx 0 0 2 2)) -
          pyMin (edgeDirections (crop procEx 0 0 2 2))) /
          ((edgeDirections (crop procEx 0 0 2 2)).sum -
            pyMin (edgeDirections (crop procEx 0 0 2 2)))) * 8) := by
  have hne : ¬allEqual (edgeDirections (crop procEx 0 0 2 2)) := by
    rw [edir_tile0]
    intro h
    have h1 := h 4 (by norm_num) (-4) (by norm_num)
    norm_num at h1
  exact ⟨hne, C4_thm _ hne⟩

/-- Claim C5, as stated, is false: the kernel list is not eight
*successive* 45° rotations. Rotating kernel 3 (south-east) by 45° gives
the south kernel, but `dirKernels[4]` is the south-west kernel. -/
theorem C5_counterexample : dirKernels.getD 4 [] ≠ rot45 (dirKernels.getD 3 []) := by
  decide

/-- Claim C5, amended: the eight kernels are exactly the eight 45°
rotations of the base pattern (three contiguous +5 on one side, centre 0,
−3 elsewhere), each occurring once, but in list order the positions 4↔5
and 6↔7 are swapped relative to successive-rotation order: the list is
the rotations `r^0, r^1, r^2, r^3, r^5, r^4, r^7, r^6` of the base. -/
theorem C5_thm :
    dirKernels =
      [kirschBase, rot45 kirschBase, rot45 (rot45 kirschBase),
       rot45 (rot45 (rot45 kirschBase)),
       rot45 (rot45 (rot45 (rot45 (rot45 kirschBase)))),
       rot45 (rot45 (rot45 (rot45 kirschBase))),
       rot45 (rot45 (rot45 (rot45 (rot45 (rot45 (rot45 kirschBase)))))),
       rot45 (rot45 (rot45 (rot45 (rot45 (rot45 kirschBase)))))] := by
  decide

/-- Claim C6: tile-grid generation. For a square H×H image (with
`24 ≤ H`, so that `step ≥ 1` and the loops are well defined): a candidate
anchor `(x, y)` is generated exactly when both coordinates lie in
`{overlap + k·step} ∩ [0, H-1)`; a candidate is kept exactly when its
centre `(x + step/2, y + step/2)` has both coordinates `≤ H-1`; and for
`H = 480` the derived parameters are `step = 20`, `overlap = 4`. -/
theorem C6_thm (H : ℕ) (h24 : 24 ≤ H) :
    (∀ x y : ℕ, (x, y) ∈ candAnchors H H ↔
      (((∃ k, x = tileOverlap H + k * tileStep H) ∧ x < H - 1) ∧
       ((∃ k, y = tileOverlap H + k * tileStep H) ∧ y < H - 1))) ∧
    (∀ x y : ℕ, (x, y) ∈ keptAnchors H H ↔
      ((x, y) ∈ candAnchors H H ∧
        x + tileStep H / 2 ≤ H - 1 ∧ y + tileStep H / 2 ≤ H - 1)) ∧
    tileStep 480 = 20 ∧ tileOverlap 480 = 4 := by
  have hs : 0 < tileStep H := Nat.div_pos h24 (by norm_num [nRows])
  refine ⟨?_, ?_, by decide, by decide⟩
  · intro x y
    rw [candAnchors]
    simp only [List.mem_flatMap, List.mem_map, Prod.mk.injEq]
    constructor
    · rintro ⟨y', hy', x', hx', rfl, rfl⟩
      exact ⟨(pyRange_mem _ _ _ hs x').mp hx', (pyRange_mem _ _ _ hs y').mp hy'⟩
    · rintro ⟨hx, hy⟩
      exact ⟨y, (pyRange_mem _ _ _ hs y).mpr hy, x, (pyRange_mem _ _ _ hs x).mpr hx,
        rfl, rfl⟩
  · intro x y
    rw [keptAnchors_mem]
    rw [keepTile, not_or, not_lt, not_lt]

/-- Witness for C6 at `H = 480`. -/
theorem C6_witness :
    (24 : ℕ) ≤ 480 ∧
    ((∀ x y : ℕ, (x, y) ∈ candAnchors 480 480 ↔
      (((∃ k, x = tileOverlap 480 + k * tileStep 480) ∧ x < 480 - 1) ∧
       ((∃ k, y = tileOverlap 480 + k * tileStep 480) ∧ y < 480 - 1))) ∧
    (∀ x y : ℕ, (x, y) ∈ keptAnchors 480 480 ↔
      ((x, y) ∈ candAnchors 480 480 ∧
        x + tileStep 480 / 2 ≤ 480 - 1 ∧ y + tileStep 480 / 2 ≤ 480 - 1)) ∧
    tileStep 480 = 20 ∧ tileOverlap 480 = 4) :=
  ⟨by norm_num, C6_thm 480 (by norm_num)⟩

/-- Claim C7: a non-square image contributes no table rows; the batch
before and after it behaves identically on the shared table (and on the
crash flag), the image itself only surfaces the "Image is not square"
dialog and an empty overlay, and the other images of the batch are
processed as if it were absent. (The external smoothing preserves image
dimensions, as ImageJ's Gaussian blur does.) -/
theorem C7_thm (blur : ℚ → Image → Image) (hdim : dimPreserving blur) (cal : Calib)
    (pre post : List (String × Image)) (t : String) (bad : Image)
    (hbad : bad.width ≠ bad.height) :
    (processBatch blur cal (pre ++ (t, bad) :: post)).table =
      (processBatch blur cal (pre ++ post)).table ∧
    (processBatch blur cal (pre ++ (t, bad) :: post)).crashed =
      (processBatch blur cal (pre ++ post)).crashed ∧
    ∀ st : BatchState, st.crashed = false →
      runOne blur cal st (t, bad) =
        { st with overlays := st.overlays ++ [[]],
                  errors := st.errors ++ ["Image is not square"] } := by
  have key :
      (processBatch blur cal (pre ++ (t, bad) :: post)).table =
        (processBatch blur cal (pre ++ post)).table ∧
      (processBatch blur cal (pre ++ (t, bad) :: post)).crashed =
        (processBatch blur cal (pre ++ post)).crashed := by
    rw [processBatch, processBatch, processFrom_append, processFrom_append]
    set s := processFrom blur cal batchInit pre with hs
    by_cases hc : s.crashed = true
    · rw [show processFrom blur cal s ((t, bad) :: post) =
          processFrom blur cal (runOne blur cal s (t, bad)) post from rfl,
        runOne_of_crashed blur cal s _ hc]
      exact ⟨rfl, rfl⟩
    · rw [show processFrom blur cal s ((t, bad) :: post) =
          processFrom blur cal (runOne blur cal s (t, bad)) post from rfl,
        runOne_nonsquare blur hdim cal s t bad hbad (by simpa using hc)]
      exact processFrom_table_det blur cal post _ s rfl rfl
  exact ⟨key.1, key.2, fun st h => runOne_nonsquare blur hdim cal st t bad hbad h⟩

/-- Witness for C7: a 2×3 image in a batch in front of the 48×48 test
image. -/
theorem C7_witness :
    (constImg 2 3 0).width ≠ (constImg 2 3 0).height ∧
    ((processBatch blurEx calUnit ([] ++ ("bad", constImg 2 3 0) :: [("t", rawEx)])).table =
      (processBatch blurEx calUnit ([] ++ [("t", rawEx)])).table ∧
    (processBatch blurEx calUnit ([] ++ ("bad", constImg 2 3 0) :: [("t", rawEx)])).crashed =
      (processBatch blurEx calUnit ([] ++ [("t", rawEx)])).crashed ∧
    ∀ st : BatchState, st.crashed = false →
      runOne blurEx calUnit st ("bad", constImg 2 3 0) =
        { st with overlays := st.overlays ++ [[]],
                  errors := st.errors ++ ["Image is not square"] }) :=
  ⟨by decide, C7_thm blurEx blurEx_dim calUnit [] [("t", rawEx)] "bad" (constImg 2 3 0)
    (by decide)⟩

/-- Claim C8: across a whole run, every row of the shared table carries a
`Tile` index equal to its position in the table — indices are assigned
from the running table length, so they are unique, increase in insertion
order, and continue across the images of a batch. -/
theorem C8_thm (blur : ℚ → Image → Image) (cal : Calib)
    (items : List (String × Image)) (i : ℕ) (r : TileRecord)
    (h : (processBatch blur cal items).table.get? i = some r) : r.tile = i :=
  processFrom_tableOk blur cal items batchInit (fun j s hj => by cases hj) i r h

/-- Witness for C8 on a one-image batch. -/
theorem C8_witness :
    (processBatch blurEx calUnit [("t", rawEx)]).table.get? 0 = some rec0Ex ∧
      rec0Ex.tile = 0 :=
  ⟨by rw [batch_rawEx]; rfl, C8_thm blurEx calUnit [("t", rawEx)] 0 rec0Ex
    (by rw [batch_rawEx]; rfl)⟩

/-- Claim C9, as stated, is false. `getStackIndex` clamps its 1-based
slice argument, and the loop passes the 0-based `z` as that argument: the
scan reads slice 1 twice and never reads the last slice. For a two-slice
stack with means 0 and 5, every scanned mean is 0, `maxZ` ends at 0, and
the selector returns slice index 0 — whose mean is strictly below the
(never-examined) maximal slice's. -/
theorem C9_counterexample :
    selectSliceIdx [constImg 1 1 0, constImg 1 1 5] = 0 ∧
    meanImg (([constImg 1 1 0, constImg 1 1 5] : List Image).getD 0 emptyImg) <
      meanImg (([constImg 1 1 0, constImg 1 1 5] : List Image).getD 1 emptyImg) := by
  refine ⟨selectSliceIdx_cex, ?_⟩
  norm_num [mean_const11]

/-- Claim C9, amended: the selector always returns a valid slice index
(clamping makes even `maxZ = -1` a valid access to slice 1), but because
the 0-based loop variable is passed as the 1-based slice argument, only
slices `0 .. n-2` are ever examined. Whenever one of them has mean above
the sentinel `-1`, the selector returns the first slice of maximal mean
among slices `0 .. n-2`; when all of them have mean `≤ -1` (or the stack
has a single slice) it returns slice 0. The last slice is never selected
for `n ≥ 2`. -/
theorem C9_thm (slices : List Image) (hne : slices ≠ []) :
    selectSliceIdx slices < slices.length ∧
    ((∃ z, z < slices.length - 1 ∧ (-1 : ℚ) < meanImg (slices.getD z emptyImg)) →
      selectSliceIdx slices < slices.length - 1 ∧
      (∀ j, j < slices.length - 1 →
        meanImg (slices.getD j emptyImg) ≤
          meanImg (slices.getD (selectSliceIdx slices) emptyImg)) ∧
      ∀ j, j < selectSliceIdx slices →
        meanImg (slices.getD j emptyImg) <
          meanImg (slices.getD (selectSliceIdx slices) emptyImg)) ∧
    ((∀ z, z < slices.length - 1 → meanImg (slices.getD z emptyImg) ≤ -1) →
      selectSliceIdx slices = 0) := by
  have hn1 : 0 < slices.length := List.length_pos.mpr hne
  have hscan : ∀ z, z < slices.length → (scannedMeans slices).getD z 0 =
      meanImg (slices.getD (z - 1) emptyImg) := by
    intro z hz
    rw [scannedMeans_getD slices z hz, clampSlice_idx slices.length z hz]
  by_cases hx : ∃ v ∈ scannedMeans slices, (-1 : ℚ) < v
  · obtain ⟨k, hk, heq, hgtk, hall, hfirst⟩ :=
      selectGo_found (scannedMeans slices) 0 (-1) (-1) hx
    rw [scannedMeans_length] at hk
    have hidx : selectSliceIdx slices = k - 1 := by
      rw [selectSliceIdx, selectMaxZ, heq,
        show ((0 + k : ℕ) : ℤ) = ((k : ℕ) : ℤ) from by norm_num,
        clampSlice_idx slices.length k hk]
    have hik : meanImg (slices.getD (selectSliceIdx slices) emptyImg) =
        (scannedMeans slices).getD k 0 := by
      rw [hidx, hscan k hk]
    refine ⟨by omega, ?_, ?_⟩
    · rintro ⟨z0, hz0, -⟩
      have hn2 : 2 ≤ slices.length := by omega
      refine ⟨by omega, ?_, ?_⟩
      · intro j hj
        have hj1 : j + 1 < slices.length := by omega
        have hmj : meanImg (slices.getD j emptyImg) = (scannedMeans slices).getD (j + 1) 0 := by
          rw [hscan (j + 1) hj1, Nat.add_sub_cancel]
        rw [hmj, hik]
        exact hall (j + 1) (by rw [scannedMeans_length]; omega)
      · intro j hj
        rw [hidx] at hj
        have hj1 : j + 1 < slices.length := by omega
        have hmj : meanImg (slices.getD j emptyImg) = (scannedMeans slices).getD (j + 1) 0 := by
          rw [hscan (j + 1) hj1, Nat.add_sub_cancel]
        rw [hmj, hik]
        exact hfirst (j + 1) (by omega)
    · intro hle
      rcases Nat.lt_or_ge slices.length 2 with hsmall | hbig
      · rw [hidx]; omega
      · exfalso
        have hk1 : k - 1 < slices.length - 1 := by omega
        have hle2 := hle (k - 1) hk1
        rw [← hscan k hk] at hle2
        linarith
  · push_neg at hx
    have hnone : selectGo (scannedMeans slices) 0 (-1) (-1) = -1 :=
      selectGo_none (scannedMeans slices) 0 (-1) (-1) fun v hv => not_lt.mpr (hx v hv)
    have hidx : selectSliceIdx slices = 0 := by
      rw [selectSliceIdx, selectMaxZ, hnone, clampSlice_negOne slices.length hn1]
    refine ⟨by omega, ?_, fun _ => hidx⟩
    rintro ⟨z0, hz0, hz0gt⟩
    exfalso
    have hz1 : z0 + 1 < slices.length := by omega
    have hmem := hx ((scannedMeans slices).getD (z0 + 1) 0) (by
      rw [List.getD_eq_getElem _ _ (by rw [scannedMeans_length]; omega)]
      exact List.getElem_mem _)
    rw [hscan (z0 + 1) hz1, Nat.add_sub_cancel] at hmem
    linarith

/-- Witness for the amended C9: three slices with means 0, 2, 2 — only
slices 0 and 1 are scanned, and the selector returns index 1, the first
maximal slice among them. -/
theorem C9_witness :
    ([constImg 1 1 0, constImg 1 1 2, constImg 1 1 2] : List Image) ≠ [] ∧
    (selectSliceIdx [constImg 1 1 0, constImg 1 1 2, constImg 1 1 2] <
      ([constImg 1 1 0, constImg 1 1 2, constImg 1 1 2] : List Image).length ∧
    ((∃ z, z < ([constImg 1 1 0, constImg 1 1 2, constImg 1 1 2] : List Image).length - 1 ∧
        (-1 : ℚ) < meanImg (([constImg 1 1 0, constImg 1 1 2, constImg 1 1 2] :
          List Image).getD z emptyImg)) →
      selectSliceIdx [constImg 1 1 0, constImg 1 1 2, constImg 1 1 2] <
        ([constImg 1 1 0, constImg 1 1 2, constImg 1 1 2] : List Image).length - 1 ∧
      (∀ j, j < ([constImg 1 1 0, constImg 1 1 2, constImg 1 1 2] : List Image).length - 1 →
        meanImg (([constImg 1 1 0, constImg 1 1 2, constImg 1 1 2] : List Image).getD j emptyImg) ≤
          meanImg (([constImg 1 1 0, constImg 1 1 2, constImg 1 1 2] : List Image).getD
            (selectSliceIdx [constImg 1 1 0, constImg 1 1 2, constImg 1 1 2]) emptyImg)) ∧
      ∀ j, j < selectSliceIdx [constImg 1 1 0, constImg 1 1 2, constImg 1 1 2] →
        meanImg (([constImg 1 1 0, constImg 1 1 2, constImg 1 1 2] : List Image).getD j emptyImg) <
          meanImg (([constImg 1 1 0, constImg 1 1 2, constImg 1 1 2] : List Image).getD
            (selectSliceIdx [constImg 1 1 0, constImg 1 1 2, constImg 1 1 2]) emptyImg)) ∧
    ((∀ z, z < ([constImg 1 1 0, constImg 1 1 2, constImg 1 1 2] : List Image).length - 1 →
        meanImg (([constImg 1 1 0, constImg 1 1 2, constImg 1 1 2] :
          List Image).getD z emptyImg) ≤ -1) →
      selectSliceIdx [constImg 1 1 0, constImg 1 1 2, constImg 1 1 2] = 0)) :=
  ⟨List.cons_ne_nil _ _,
    C9_thm [constImg 1 1 0, constImg 1 1 2, constImg 1 1 2] (List.cons_ne_nil _ _)⟩

/-- Claim C10, as stated, is false: a tile can pass the boundary check and
still append no primitives, because the scoring step dies first. On a
flat 48×48 image the anchor (0,0) passes the boundary check, yet the
analysis produces an empty overlay (and an empty table). -/
theorem C10_counterexample :
    (0, 0) ∈ keptAnchors 48 48 ∧
      tiledAnalysis 0 (constImg 48 48 5) "t" calUnit = some ([], [], true) :=
  ⟨by decide, tiledAnalysis_const48⟩

/-- Claim C10, amended: the overlay always holds exactly three primitives
per produced table row, in order — for the i-th row, primitive `3i` is
the tile rectangle of a kept anchor, `3i+1` the direction arrow at the
tile centre, `3i+2` the index label carrying row index `startRow + i`. A
tile that passes the boundary check but dies in the scoring step appends
neither a row nor any primitive. -/
theorem C10_thm (startRow : ℕ) (ip : Image) (title : String) (cal : Calib)
    (rs : List TileRecord) (annots : List Annot) (cr : Bool)
    (h : tiledAnalysis startRow ip title cal = some (rs, annots, cr)) :
    annots.length = 3 * rs.length ∧
    ∀ i, i < rs.length →
      ∃ x y, (x, y) ∈ keptAnchors ip.width ip.height ∧
        annots.get? (3 * i) = some (Annot.rect (x - tileOverlap ip.height)
          (y - tileOverlap ip.height) (tileStep ip.height + tileOverlap ip.height * 2)
          (tileStep ip.height + tileOverlap ip.height * 2)) ∧
        (∃ th f, annots.get? (3 * i + 1) = some (Annot.arrow (x + tileStep ip.height / 2)
          (y + tileStep ip.height / 2) th f)) ∧
        annots.get? (3 * i + 2) = some (Annot.label
          ((x : ℤ) + ((tileStep ip.height / 2 : ℕ) : ℤ) - 10) ((y : ℤ) + 6)
          (startRow + i)) := by
  rw [tiledAnalysis] at h
  by_cases hsq : ip.width ≠ ip.height
  · rw [if_pos hsq] at h; cases h
  · rw [if_neg hsq] at h
    by_cases hst : tileStep ip.height = 0
    · rw [if_pos hst] at h
      obtain ⟨rfl, rfl, rfl⟩ := Prod.mk.injEq .. ▸ (Option.some.inj h)
      exact ⟨rfl, fun i hi => absurd hi (by simp)⟩
    · rw [if_neg hst] at h
      obtain h' := Option.some.inj h
      constructor
      · have := processTiles_len ip title cal (candAnchors ip.width ip.height) startRow
        rw [h'] at this
        exact this
      · intro i hi
        have hl := processTiles_annots ip title cal (candAnchors ip.width ip.height)
          startRow i
        rw [h'] at hl
        obtain ⟨x, y, hm, hk, h0, h1, h2⟩ := hl hi
        exact ⟨x, y, (keptAnchors_mem _ _ x y).mpr ⟨hm, hk⟩, h0, h1, h2⟩

/-- Witness for the amended C10 at the concrete 48×48 input: one row,
three primitives. -/
theorem C10_witness :
    annotsEx.length = 3 * ([rec0Ex] : List TileRecord).length ∧
    ∀ i, i < ([rec0Ex] : List TileRecord).length →
      ∃ x y, (x, y) ∈ keptAnchors procEx.width procEx.height ∧
        annotsEx.get? (3 * i) = some (Annot.rect (x - tileOverlap procEx.height)
          (y - tileOverlap procEx.height)
          (tileStep procEx.height + tileOverlap procEx.height * 2)
          (tileStep procEx.height + tileOverlap procEx.height * 2)) ∧
        (∃ th f, annotsEx.get? (3 * i + 1) = some (Annot.arrow
          (x + tileStep procEx.height / 2) (y + tileStep procEx.height / 2) th f)) ∧
        annotsEx.get? (3 * i + 2) = some (Annot.label
          ((x : ℤ) + ((tileStep procEx.height / 2 : ℕ) : ℤ) - 10) ((y : ℤ) + 6)
          (0 + i)) :=
  C10_thm 0 procEx "t" calUnit [rec0Ex] annotsEx true tiledAnalysis_procEx

end StressFibre
